import Mathlib

/-!
Verification of the bank-to-tally extraction pipeline.

Shallow embedding of the pure core of the repository:
ordinary strings are modelled as `List Char`, JS numbers as `Rat`,
JS `Map`/`Set` as association lists / lists, and fallible host
capabilities (`JSON.parse`, `new Date`) as explicit `Option`-valued
oracles passed in as parameters.
-/

set_option autoImplicit false
set_option maxRecDepth 20000

namespace BankToTally

/-- Whitespace test modelling the JS `\s` character class on the
characters that actually occur in this code base (space, tab, CR, LF,
vertical tab, form feed). -/
def isWS (c : Char) : Bool :=
  c == ' ' || c == '\t' || c == '\n' || c == '\r' || c == '\x0b' || c == '\x0c'

/-- Drop trailing characters satisfying `p` (helper for `jsTrim`). -/
def dropWhileEnd (p : Char → Bool) : List Char → List Char
  | [] => []
  | c :: r =>
    let r' := dropWhileEnd p r
    if r' = [] && p c then [] else c :: r'

/-- Model of JS `String.prototype.trim`: remove leading and trailing
whitespace. -/
def jsTrim (l : List Char) : List Char :=
  dropWhileEnd isWS (l.dropWhile isWS)

theorem dropWhile_of_head_false {p : Char → Bool} {c : Char} {r : List Char}
    (h : p c = false) : (c :: r).dropWhile p = c :: r := by
  simp [List.dropWhile, h]

theorem dropWhile_all_false {p : Char → Bool} {l : List Char}
    (h : ∀ c ∈ l, p c = false) : l.dropWhile p = l := by
  cases l with
  | nil => rfl
  | cons c r => exact dropWhile_of_head_false (h c (by simp))

theorem dropWhileEnd_all_false {p : Char → Bool} {l : List Char}
    (h : ∀ c ∈ l, p c = false) : dropWhileEnd p l = l := by
  induction l with
  | nil => rfl
  | cons c r ih =>
    have hc : p c = false := h c (by simp)
    have hr : dropWhileEnd p r = r := ih (fun x hx => h x (by simp [hx]))
    simp [dropWhileEnd, hr, hc]

theorem jsTrim_all_false {l : List Char}
    (h : ∀ c ∈ l, isWS c = false) : jsTrim l = l := by
  unfold jsTrim
  rw [dropWhile_all_false h, dropWhileEnd_all_false h]

/-- The head of a `dropWhile` result never satisfies the predicate. -/
theorem dropWhile_head_false (p : Char → Bool) (l : List Char) :
    l.dropWhile p = [] ∨
      ∃ c r, l.dropWhile p = c :: r ∧ p c = false := by
  induction l with
  | nil => exact Or.inl rfl
  | cons c r ih =>
    by_cases hc : p c = true
    · simpa [List.dropWhile, hc] using ih
    · exact Or.inr ⟨c, r, by simp [List.dropWhile, hc], by simpa using hc⟩

/-- The last element of a `dropWhileEnd` result never satisfies the
predicate. -/
theorem dropWhileEnd_last_false (p : Char → Bool) (l : List Char) :
    dropWhileEnd p l = [] ∨
      ∃ l' c, dropWhileEnd p l = l' ++ [c] ∧ p c = false := by
  induction l with
  | nil => exact Or.inl rfl
  | cons c r ih =>
    rcases ih with h | ⟨l', d, hd, hpd⟩
    · by_cases hc : p c = true
      · exact Or.inl (by simp [dropWhileEnd, h, hc])
      · exact Or.inr ⟨[], c, by simp [dropWhileEnd, h, hc], by simpa using hc⟩
    · refine Or.inr ⟨c :: l', d, ?_, hpd⟩
      have hne : dropWhileEnd p r ≠ [] := by simp [hd]
      simp [dropWhileEnd, hd, hne]

/-- If the last element does not satisfy `p`, `dropWhileEnd` is the
identity. -/
theorem dropWhileEnd_of_last_false {p : Char → Bool} {l' : List Char} {c : Char}
    (h : p c = false) : dropWhileEnd p (l' ++ [c]) = l' ++ [c] := by
  induction l' with
  | nil => simp [dropWhileEnd, h]
  | cons d r ih =>
    have hne : dropWhileEnd p (r ++ [c]) ≠ [] := by simp [ih]
    simp [dropWhileEnd, ih, hne]

/-- Push `dropWhileEnd` under a head that fails the predicate. -/
theorem dropWhileEnd_cons_of_false {p : Char → Bool} {c : Char} {r : List Char}
    (h : p c = false) : dropWhileEnd p (c :: r) = c :: dropWhileEnd p r := by
  simp [dropWhileEnd, h]

/-- Trimming is idempotent. -/
theorem jsTrim_idem (l : List Char) : jsTrim (jsTrim l) = jsTrim l := by
  unfold jsTrim
  rcases dropWhileEnd_last_false isWS (l.dropWhile isWS) with h | ⟨l', c, hd, hpc⟩
  · simp [h, dropWhileEnd]
  · rw [hd]
    rcases dropWhile_head_false isWS l with h0 | ⟨c0, r0, hc0, hpc0⟩
    · rw [h0] at hd
      simp [dropWhileEnd] at hd
    · rw [hc0, dropWhileEnd_cons_of_false hpc0] at hd
      have hdw : (l' ++ [c]).dropWhile isWS = l' ++ [c] := by
        cases l' with
        | nil =>
          have : c = c0 := by
            have := hd.symm
            rw [List.nil_append] at this
            exact (List.cons.injEq _ _ _ _ ▸ this).1
          exact dropWhile_of_head_false (this ▸ hpc0)
        | cons a t =>
          have ha : a = c0 := (List.cons.injEq _ _ _ _ ▸ hd.symm).1
          exact dropWhile_of_head_false (ha ▸ hpc0)
      rw [hdw, dropWhileEnd_of_last_false hpc]

/-! ### Date normalization (`parseDate` in `src/lib/utils.ts`) -/

/-- Anchored test for the regex `^\d{4}-\d{2}-\d{2}$`. -/
def matchISO : List Char → Bool
  | [y1, y2, y3, y4, s1, m1, m2, s2, d1, d2] =>
    y1.isDigit && y2.isDigit && y3.isDigit && y4.isDigit && s1 == '-' &&
    m1.isDigit && m2.isDigit && s2 == '-' && d1.isDigit && d2.isDigit
  | _ => false

/-- Separator class `[\/\-\.]` used by the 4-digit-year date regex. -/
def isSep3 (c : Char) : Bool := c == '/' || c == '-' || c == '.'

/-- Separator class `[\/\-]` used by the 2-digit-year date regex. -/
def isSep2 (c : Char) : Bool := c == '/' || c == '-'

/-- Anchored matcher for `^(\d{1,2})SEP(\d{1,2})SEP(\d{ylen})$`,
returning the three capture groups; the greedy `takeWhile` coincides
with the regex because a separator is never a digit. -/
def matchDMY (sep : Char → Bool) (ylen : Nat) (l : List Char) :
    Option (List Char × List Char × List Char) :=
  let d1 := l.takeWhile Char.isDigit
  let r1 := l.dropWhile Char.isDigit
  if 1 ≤ d1.length ∧ d1.length ≤ 2 then
    match r1 with
    | [] => none
    | c1 :: r2 =>
      if sep c1 then
        let d2 := r2.takeWhile Char.isDigit
        let r3 := r2.dropWhile Char.isDigit
        if 1 ≤ d2.length ∧ d2.length ≤ 2 then
          match r3 with
          | [] => none
          | c2 :: r4 =>
            if sep c2 then
              let d3 := r4.takeWhile Char.isDigit
              let r5 := r4.dropWhile Char.isDigit
              if d3.length = ylen ∧ r5 = [] then some (d1, d2, d3) else none
            else none
        else none
      else none
  else none

/-- Model of JS `padStart(2, '0')`. -/
def pad2 (l : List Char) : List Char :=
  if l.length = 0 then ['0', '0'] else if l.length = 1 then '0' :: l else l

/-- Decimal digits to a natural number (model of `parseInt` on an
all-digit string). -/
def digitsToNat (l : List Char) : Nat :=
  l.foldl (fun a c => a * 10 + (c.toNat - '0'.toNat)) 0

/-- Embedding of `parseDate` from `src/lib/utils.ts` on character lists.
The `new Date(cleaned)` / `toISOString` fallback is a host capability
and is passed in as the oracle `jsDate` (`none` = invalid date). The
source's branches, in order: empty input, the `YYYY-MM-DD` pass-through
regex, the 4-digit-year `D/M/Y` regex, the 2-digit-year regex with the
`parseInt(year) > 50 ? '19'.. : '20'..` century split, the `Date`
fallback, and finally returning the trimmed input unchanged. -/
def parseDateCL (jsDate : List Char → Option (List Char)) (l : List Char) :
    List Char :=
  if l = [] then []
  else
    let cleaned := jsTrim l
    if matchISO cleaned then cleaned
    else
      match matchDMY isSep3 4 cleaned with
      | some (day, month, year) => year ++ '-' :: pad2 month ++ '-' :: pad2 day
      | none =>
        match matchDMY isSep2 2 cleaned with
        | some (day, month, year) =>
          (if 50 < digitsToNat year then '1' :: '9' :: year
           else '2' :: '0' :: year) ++ '-' :: pad2 month ++ '-' :: pad2 day
        | none =>
          match jsDate cleaned with
          | some iso => iso
          | none => cleaned

/-- String-level wrapper for `parseDateCL`. -/
def parseDate (jsDate : List Char → Option (List Char)) (s : String) : String :=
  String.mk (parseDateCL jsDate s.toList)

/-- A `Date`-fallback oracle that always fails (models an environment
where `new Date(cleaned)` yields an invalid date). -/
def noDateFallback : List Char → Option (List Char) := fun _ => none

example : parseDate noDateFallback "2024-01-15" = "2024-01-15" := by decide
example : parseDate noDateFallback "15/01/2024" = "2024-01-15" := by decide
example : parseDate noDateFallback "15-1-2024" = "2024-01-15" := by decide
example : parseDate noDateFallback "15.01.2024" = "2024-01-15" := by decide
example : parseDate noDateFallback "1/2/50" = "2050-02-01" := by decide
example : parseDate noDateFallback "1/2/51" = "1951-02-01" := by decide
example : parseDate noDateFallback "1/2/49" = "2049-02-01" := by decide
example : parseDate noDateFallback "hello" = "hello" := by decide
example : parseDate noDateFallback "" = "" := by decide

theorem mem_takeWhile {p : Char → Bool} :
    ∀ {l : List Char} {x : Char}, x ∈ l.takeWhile p → p x = true := by
  intro l
  induction l with
  | nil => intro x h; simp [List.takeWhile] at h
  | cons c r ih =>
    intro x h
    by_cases hc : p c = true
    · simp only [List.takeWhile, hc] at h
      rcases List.mem_cons.mp h with h1 | h1
      · exact h1 ▸ hc
      · exact ih h1
    · have hc' : p c = false := by simpa using hc
      simp [List.takeWhile, hc'] at h

theorem takeWhile_all {p : Char → Bool} {l : List Char}
    (h : ∀ x ∈ l, p x = true) : l.takeWhile p = l ∧ l.dropWhile p = [] := by
  induction l with
  | nil => exact ⟨rfl, rfl⟩
  | cons c r ih =>
    have hc : p c = true := h c (by simp)
    have := ih (fun x hx => h x (by simp [hx]))
    exact ⟨by simp [List.takeWhile, hc, this.1], by simp [List.dropWhile, hc, this.2]⟩

theorem takeWhile_append_sep {p : Char → Bool} {d r : List Char} {c : Char}
    (hd : ∀ x ∈ d, p x = true) (hc : p c = false) :
    (d ++ c :: r).takeWhile p = d ∧ (d ++ c :: r).dropWhile p = c :: r := by
  induction d with
  | nil => exact ⟨by simp [List.takeWhile, hc], by simp [List.dropWhile, hc]⟩
  | cons a t ih =>
    have ha : p a = true := hd a (by simp)
    have := ih (fun x hx => hd x (by simp [hx]))
    exact ⟨by simp [List.takeWhile, ha, this.1], by simp [List.dropWhile, ha, this.2]⟩

/-- Value of `matchDMY` on an input assembled from digit groups and
separators. -/
theorem matchDMY_append {sep : Char → Bool} {ylen : Nat} {d m y : List Char}
    {c1 c2 : Char}
    (hd : ∀ x ∈ d, x.isDigit = true) (hd1 : 1 ≤ d.length) (hd2 : d.length ≤ 2)
    (hm : ∀ x ∈ m, x.isDigit = true) (hm1 : 1 ≤ m.length) (hm2 : m.length ≤ 2)
    (hy : ∀ x ∈ y, x.isDigit = true)
    (hc1 : sep c1 = true) (hc2 : sep c2 = true)
    (hc1d : c1.isDigit = false) (hc2d : c2.isDigit = false) :
    matchDMY sep ylen (d ++ c1 :: (m ++ c2 :: y)) =
      if y.length = ylen then some (d, m, y) else none := by
  have h1 := @takeWhile_append_sep Char.isDigit d (m ++ c2 :: y) c1 hd hc1d
  have h2 := @takeWhile_append_sep Char.isDigit m y c2 hm hc2d
  have h3 := takeWhile_all hy
  unfold matchDMY
  simp only [h1.1, h1.2, h2.1, h2.2, h3.1, h3.2, hc1, hc2]
  simp [hd1, hd2, hm1, hm2]

theorem matchISO_length {l : List Char} (h : matchISO l = true) :
    l.length = 10 := by
  unfold matchISO at h
  split at h
  · rename_i heq; simp
  · cases h

theorem matchISO_digits {l : List Char} (h : matchISO l = true) :
    ∀ c ∈ l, c.isDigit = true ∨ c = '-' := by
  unfold matchISO at h
  split at h
  · simp only [Bool.and_eq_true, beq_iff_eq] at h
    intro c hc
    simp only [List.mem_cons, List.not_mem_nil, or_false] at hc
    rcases hc with h1|h1|h1|h1|h1|h1|h1|h1|h1|h1 <;> subst h1 <;> simp_all
  · cases h

theorem matchISO_pos_digit {l : List Char} (h : matchISO l = true) :
    (∀ c, l[1]? = some c → c.isDigit = true) ∧
    (∀ c, l[2]? = some c → c.isDigit = true) := by
  unfold matchISO at h
  split at h
  · simp only [Bool.and_eq_true, beq_iff_eq] at h
    constructor
    · intro c hc
      simp only [List.getElem?_cons_succ, List.getElem?_cons_zero,
        Option.some.injEq] at hc
      subst hc; simp_all
    · intro c hc
      simp only [List.getElem?_cons_succ, List.getElem?_cons_zero,
        Option.some.injEq] at hc
      subst hc; simp_all
  · cases h

theorem not_ws_of_digit {c : Char} (h : c.isDigit = true) : isWS c = false := by
  rw [Bool.eq_false_iff]
  intro hw
  simp only [isWS, Bool.or_eq_true, beq_iff_eq] at hw
  rcases hw with ((((h1|h1)|h1)|h1)|h1)|h1 <;> subst h1 <;>
    exact absurd h (by decide)

theorem sep_not_ws {c : Char} (h : c = '/' ∨ c = '-' ∨ c = '.') :
    isWS c = false := by
  rcases h with h | h | h <;> subst h <;> decide

theorem sep_not_digit {c : Char} (h : c = '/' ∨ c = '-' ∨ c = '.') :
    c.isDigit = false := by
  rcases h with h | h | h <;> subst h <;> decide

theorem composed_ne_nil (d rest : List Char) (hd1 : 1 ≤ d.length) :
    d ++ rest ≠ [] := by
  intro h
  rcases List.append_eq_nil.mp h with ⟨h1, h2⟩
  subst h1
  simp at hd1

theorem composed_no_ws {d m y : List Char} {c1 c2 : Char}
    (hd : ∀ x ∈ d, x.isDigit = true) (hm : ∀ x ∈ m, x.isDigit = true)
    (hy : ∀ x ∈ y, x.isDigit = true)
    (hc1 : c1 = '/' ∨ c1 = '-' ∨ c1 = '.') (hc2 : c2 = '/' ∨ c2 = '-' ∨ c2 = '.') :
    ∀ x ∈ d ++ c1 :: (m ++ c2 :: y), isWS x = false := by
  intro x hx
  simp only [List.mem_append, List.mem_cons] at hx
  rcases hx with hx | hx | hx | hx | hx
  · exact not_ws_of_digit (hd x hx)
  · exact hx ▸ sep_not_ws hc1
  · exact not_ws_of_digit (hm x hx)
  · exact hx ▸ sep_not_ws hc2
  · exact not_ws_of_digit (hy x hx)

theorem composed_not_ISO (d m y : List Char) (c1 c2 : Char)
    (hd1 : 1 ≤ d.length) (hd2 : d.length ≤ 2)
    (hc1 : c1 = '/' ∨ c1 = '-' ∨ c1 = '.') :
    matchISO (d ++ c1 :: (m ++ c2 :: y)) = false := by
  rw [Bool.eq_false_iff]
  intro h
  have hp := matchISO_pos_digit h
  have hg : (d ++ c1 :: (m ++ c2 :: y))[d.length]? = some c1 := by
    rw [List.getElem?_append_right (le_refl d.length)]
    simp
  have hlen : d.length = 1 ∨ d.length = 2 := by omega
  rcases hlen with he | he
  · rw [he] at hg
    exact absurd (hp.1 c1 hg) (by simp [sep_not_digit hc1])
  · rw [he] at hg
    exact absurd (hp.2 c1 hg) (by simp [sep_not_digit hc1])

/-- Evaluation of `parseDateCL` on a 4-digit-year `D/M/YYYY`-shaped
input: the second regex branch fires, independently of the `Date`
fallback oracle. -/
theorem parseDateCL_dmy4 (jd : List Char → Option (List Char))
    {d m y : List Char} {c1 c2 : Char}
    (hd : ∀ x ∈ d, x.isDigit = true) (hd1 : 1 ≤ d.length) (hd2 : d.length ≤ 2)
    (hm : ∀ x ∈ m, x.isDigit = true) (hm1 : 1 ≤ m.length) (hm2 : m.length ≤ 2)
    (hy : ∀ x ∈ y, x.isDigit = true) (hy4 : y.length = 4)
    (hc1 : c1 = '/' ∨ c1 = '-' ∨ c1 = '.') (hc2 : c2 = '/' ∨ c2 = '-' ∨ c2 = '.') :
    parseDateCL jd (d ++ c1 :: (m ++ c2 :: y)) =
      y ++ '-' :: pad2 m ++ '-' :: pad2 d := by
  have hne := composed_ne_nil d (c1 :: (m ++ c2 :: y)) hd1
  have htrim := jsTrim_all_false (composed_no_ws hd hm hy hc1 hc2)
  have hiso := composed_not_ISO d m y c1 c2 hd1 hd2 hc1
  have h4 : matchDMY isSep3 4 (d ++ c1 :: (m ++ c2 :: y)) = some (d, m, y) := by
    rw [matchDMY_append hd hd1 hd2 hm hm1 hm2 hy
      (by rcases hc1 with h | h | h <;> subst h <;> decide)
      (by rcases hc2 with h | h | h <;> subst h <;> decide)
      (sep_not_digit hc1) (sep_not_digit hc2)]
    simp [hy4]
  rw [parseDateCL]
  simp only [if_neg hne, htrim, hiso, Bool.false_eq_true, if_false, h4]

/-- Evaluation of `parseDateCL` on a 2-digit-year `D/M/YY`-shaped input:
the third regex branch fires and applies the century split
`parseInt(year) > 50 ? '19'+year : '20'+year`. -/
theorem parseDateCL_dmy2 (jd : List Char → Option (List Char))
    {d m y : List Char} {c1 c2 : Char}
    (hd : ∀ x ∈ d, x.isDigit = true) (hd1 : 1 ≤ d.length) (hd2 : d.length ≤ 2)
    (hm : ∀ x ∈ m, x.isDigit = true) (hm1 : 1 ≤ m.length) (hm2 : m.length ≤ 2)
    (hy : ∀ x ∈ y, x.isDigit = true) (hy2 : y.length = 2)
    (hc1 : c1 = '/' ∨ c1 = '-') (hc2 : c2 = '/' ∨ c2 = '-') :
    parseDateCL jd (d ++ c1 :: (m ++ c2 :: y)) =
      (if 50 < digitsToNat y then '1' :: '9' :: y else '2' :: '0' :: y) ++
        '-' :: pad2 m ++ '-' :: pad2 d := by
  have hc1' : c1 = '/' ∨ c1 = '-' ∨ c1 = '.' := by tauto
  have hc2' : c2 = '/' ∨ c2 = '-' ∨ c2 = '.' := by tauto
  have hne := composed_ne_nil d (c1 :: (m ++ c2 :: y)) hd1
  have htrim := jsTrim_all_false (composed_no_ws hd hm hy hc1' hc2')
  have hiso := composed_not_ISO d m y c1 c2 hd1 hd2 hc1'
  have h4 : matchDMY isSep3 4 (d ++ c1 :: (m ++ c2 :: y)) = none := by
    rw [matchDMY_append hd hd1 hd2 hm hm1 hm2 hy
      (by rcases hc1' with h | h | h <;> subst h <;> decide)
      (by rcases hc2' with h | h | h <;> subst h <;> decide)
      (sep_not_digit hc1') (sep_not_digit hc2')]
    simp [hy2]
  have h2 : matchDMY isSep2 2 (d ++ c1 :: (m ++ c2 :: y)) = some (d, m, y) := by
    rw [matchDMY_append hd hd1 hd2 hm hm1 hm2 hy
      (by rcases hc1 with h | h <;> subst h <;> decide)
      (by rcases hc2 with h | h <;> subst h <;> decide)
      (sep_not_digit hc1') (sep_not_digit hc2')]
    simp [hy2]
  rw [parseDateCL]
  simp only [if_neg hne, htrim, hiso, Bool.false_eq_true, if_false, h4, h2]

theorem matchDMY_inv {sep : Char → Bool} {ylen : Nat} {l a b c : List Char}
    (h : matchDMY sep ylen l = some (a, b, c)) :
    (∀ x ∈ a, x.isDigit = true) ∧ 1 ≤ a.length ∧ a.length ≤ 2 ∧
    (∀ x ∈ b, x.isDigit = true) ∧ 1 ≤ b.length ∧ b.length ≤ 2 ∧
    (∀ x ∈ c, x.isDigit = true) ∧ c.length = ylen := by
  unfold matchDMY at h
  dsimp only at h
  split at h
  next hg1 =>
    split at h
    next => simp at h
    next c1 r2 heq1 =>
      split at h
      next hs1 =>
        split at h
        next hg2 =>
          split at h
          next => simp at h
          next c2 r4 heq2 =>
            split at h
            next hs2 =>
              split at h
              next hg3 =>
                rw [Option.some.injEq] at h
                simp only [Prod.mk.injEq] at h
                obtain ⟨h1, h2, h3⟩ := h
                subst h1
                subst h2
                subst h3
                exact ⟨fun x hx => mem_takeWhile hx, hg1.1, hg1.2,
                  fun x hx => mem_takeWhile hx, hg2.1, hg2.2,
                  fun x hx => mem_takeWhile hx, hg3.1⟩
              next => simp at h
            next => simp at h
        next => simp at h
      next => simp at h
  next => simp at h

theorem pad2_pair {l : List Char} (hd : ∀ x ∈ l, x.isDigit = true)
    (h1 : 1 ≤ l.length) (h2 : l.length ≤ 2) :
    ∃ a b, pad2 l = [a, b] ∧ a.isDigit = true ∧ b.isDigit = true := by
  rcases l with _ | ⟨x, _ | ⟨y, rest⟩⟩
  · simp at h1
  · exact ⟨'0', x, by simp [pad2], by decide, hd x (by simp)⟩
  · rcases rest with _ | ⟨z, r⟩
    · exact ⟨x, y, by simp [pad2], hd x (by simp), hd y (by simp)⟩
    · simp at h2

/-- A normalized output `YYYY-MM-DD` built from digit groups matches the
ISO regex. -/
theorem matchISO_build (Y M D : List Char)
    (hY : ∀ x ∈ Y, x.isDigit = true) (hY4 : Y.length = 4)
    (hM : ∀ x ∈ M, x.isDigit = true) (hM1 : 1 ≤ M.length) (hM2 : M.length ≤ 2)
    (hD : ∀ x ∈ D, x.isDigit = true) (hD1 : 1 ≤ D.length) (hD2 : D.length ≤ 2) :
    matchISO (Y ++ '-' :: pad2 M ++ '-' :: pad2 D) = true := by
  obtain ⟨m1, m2, hmp, hm1d, hm2d⟩ := pad2_pair hM hM1 hM2
  obtain ⟨d1, d2, hdp, hd1d, hd2d⟩ := pad2_pair hD hD1 hD2
  rcases Y with _ | ⟨y1, _ | ⟨y2, _ | ⟨y3, _ | ⟨y4, _ | ⟨y5, r⟩⟩⟩⟩⟩ <;>
    simp at hY4
  have hy1 : y1.isDigit = true := hY y1 (by simp)
  have hy2 : y2.isDigit = true := hY y2 (by simp)
  have hy3 : y3.isDigit = true := hY y3 (by simp)
  have hy4 : y4.isDigit = true := hY y4 (by simp)
  rw [hmp, hdp]
  show matchISO [y1, y2, y3, y4, '-', m1, m2, '-', d1, d2] = true
  simp [matchISO, hy1, hy2, hy3, hy4, hm1d, hm2d, hd1d, hd2d]

/-- Strings already in `YYYY-MM-DD` form are fixed points of
`parseDateCL` (the pass-through branch), for any `Date` oracle. -/
theorem parseDateCL_fix (jd : List Char → Option (List Char)) {l : List Char}
    (h : matchISO l = true) : parseDateCL jd l = l := by
  have hlen := matchISO_length h
  have hne : l ≠ [] := by intro e; subst e; simp at hlen
  have htrim : jsTrim l = l := jsTrim_all_false (fun c hc => by
    rcases matchISO_digits h c hc with hd | hd
    · exact not_ws_of_digit hd
    · subst hd; decide)
  rw [parseDateCL]
  simp only [if_neg hne, htrim, h, if_true]

/-- Claim C5 counterexample: the code maps the 2-digit year `50` to the
2000s (`2050`), not to the 1900s as the claim states. -/
theorem parseDate_year50_to_2050 :
    parseDate noDateFallback "1/2/50" = "2050-02-01" ∧
      parseDate noDateFallback "1/2/50" ≠ "1950-02-01" := by
  constructor
  · decide
  · decide

/-- Claim C5 (amended): for a `D/M/YY` or `D-M-YY` input, `parseDate`
maps a 2-digit year strictly greater than 50 to the 1900s and every
other 2-digit year (including exactly 50) to the 2000s — the code tests
`parseInt(year) > 50`. -/
theorem parseDate_century_split (jd : List Char → Option (List Char))
    (d m y : List Char) (c1 c2 : Char)
    (hd : ∀ x ∈ d, x.isDigit = true) (hd1 : 1 ≤ d.length) (hd2 : d.length ≤ 2)
    (hm : ∀ x ∈ m, x.isDigit = true) (hm1 : 1 ≤ m.length) (hm2 : m.length ≤ 2)
    (hy : ∀ x ∈ y, x.isDigit = true) (hy2 : y.length = 2)
    (hc1 : c1 = '/' ∨ c1 = '-') (hc2 : c2 = '/' ∨ c2 = '-') :
    parseDateCL jd (d ++ c1 :: (m ++ c2 :: y)) =
      (if 50 < digitsToNat y then '1' :: '9' :: y else '2' :: '0' :: y) ++
        '-' :: pad2 m ++ '-' :: pad2 d :=
  parseDateCL_dmy2 jd hd hd1 hd2 hm hm1 hm2 hy hy2 hc1 hc2

/-- Witness for claim C5's amended theorem at the concrete input
`1/2/50`, whose year is not greater than 50 and lands in 2050. -/
theorem parseDate_century_split_witness :
    parseDateCL noDateFallback (['1'] ++ '/' :: (['2'] ++ '/' :: ['5', '0'])) =
      (if 50 < digitsToNat ['5', '0'] then '1' :: '9' :: ['5', '0']
       else '2' :: '0' :: ['5', '0']) ++
        '-' :: pad2 ['2'] ++ '-' :: pad2 ['1'] :=
  parseDate_century_split noDateFallback ['1'] ['2'] ['5', '0'] '/' '/'
    (by decide) (by decide) (by decide) (by decide) (by decide) (by decide)
    (by decide) (by decide) (Or.inl rfl) (Or.inl rfl)

/-- Idempotence of `parseDateCL`, assuming the `Date` fallback oracle
only ever produces `YYYY-MM-DD`-shaped strings (true of
`toISOString().split('T')[0]` for years 0000–9999). -/
theorem parseDateCL_idem (jd : List Char → Option (List Char))
    (H : ∀ s r, jd s = some r → matchISO r = true) (l : List Char) :
    parseDateCL jd (parseDateCL jd l) = parseDateCL jd l := by
  by_cases h0 : l = []
  · subst h0; rfl
  · by_cases h1 : matchISO (jsTrim l) = true
    · have e : parseDateCL jd l = jsTrim l := by
        rw [parseDateCL]; simp [h0, h1]
      rw [e]
      exact parseDateCL_fix jd h1
    · have h1' : matchISO (jsTrim l) = false := by simpa using h1
      rcases h2 : matchDMY isSep3 4 (jsTrim l) with _ | ⟨day, month, year⟩
      · rcases h3 : matchDMY isSep2 2 (jsTrim l) with _ | ⟨day, month, year⟩
        · rcases h4 : jd (jsTrim l) with _ | iso
          · have e : parseDateCL jd l = jsTrim l := by
              rw [parseDateCL]; simp [h0, h1', h2, h3, h4]
            rw [e]
            by_cases hc : jsTrim l = []
            · rw [hc]; rfl
            · have ht := jsTrim_idem l
              rw [parseDateCL]
              simp [hc, ht, h1', h2, h3, h4]
          · have e : parseDateCL jd l = iso := by
              rw [parseDateCL]; simp [h0, h1', h2, h3, h4]
            rw [e]
            exact parseDateCL_fix jd (H _ _ h4)
        · obtain ⟨hda, hd1, hd2, hma, hm1, hm2, hya, hy2⟩ := matchDMY_inv h3
          have e : parseDateCL jd l =
              (if 50 < digitsToNat year then '1' :: '9' :: year
               else '2' :: '0' :: year) ++ '-' :: pad2 month ++ '-' :: pad2 day := by
            rw [parseDateCL]; simp [h0, h1', h2, h3]
          have hYd : ∀ x ∈ (if 50 < digitsToNat year then '1' :: '9' :: year
              else '2' :: '0' :: year), x.isDigit = true := by
            intro x hx
            split at hx <;> simp only [List.mem_cons] at hx <;>
              rcases hx with hx | hx | hx <;>
                first
                  | (subst hx; decide)
                  | exact hya x hx
          have hY4 : (if 50 < digitsToNat year then '1' :: '9' :: year
              else '2' :: '0' :: year).length = 4 := by
            split <;> simp [hy2]
          rw [e]
          exact parseDateCL_fix jd
            (matchISO_build _ month day hYd hY4 hma hm1 hm2 hda hd1 hd2)
      · obtain ⟨hda, hd1, hd2, hma, hm1, hm2, hya, hy4⟩ := matchDMY_inv h2
        have e : parseDateCL jd l =
            year ++ '-' :: pad2 month ++ '-' :: pad2 day := by
          rw [parseDateCL]; simp [h0, h1', h2]
        rw [e]
        exact parseDateCL_fix jd
          (matchISO_build year month day hya hy4 hma hm1 hm2 hda hd1 hd2)

/-- Claim C7: date normalization is idempotent (for any `Date` fallback
oracle that returns ISO-shaped dates), and the `D/M/YYYY` and `D-M-YYYY`
forms of the same calendar date normalize to an identical `YYYY-MM-DD`
result. -/
theorem parseDate_idem_and_sep_invariant :
    (∀ jd : List Char → Option (List Char),
      (∀ s r, jd s = some r → matchISO r = true) →
      ∀ l, parseDateCL jd (parseDateCL jd l) = parseDateCL jd l) ∧
    (∀ (jd : List Char → Option (List Char)) (d m y : List Char),
      (∀ x ∈ d, x.isDigit = true) → 1 ≤ d.length → d.length ≤ 2 →
      (∀ x ∈ m, x.isDigit = true) → 1 ≤ m.length → m.length ≤ 2 →
      (∀ x ∈ y, x.isDigit = true) → y.length = 4 →
      parseDateCL jd (d ++ '/' :: (m ++ '/' :: y)) =
        parseDateCL jd (d ++ '-' :: (m ++ '-' :: y))) := by
  constructor
  · exact parseDateCL_idem
  · intro jd d m y hd hd1 hd2 hm hm1 hm2 hy hy4
    rw [parseDateCL_dmy4 jd hd hd1 hd2 hm hm1 hm2 hy hy4
          (Or.inl rfl) (Or.inl rfl),
        parseDateCL_dmy4 jd hd hd1 hd2 hm hm1 hm2 hy hy4
          (Or.inr (Or.inl rfl)) (Or.inr (Or.inl rfl))]

/-- Witness for claim C7 at concrete inputs: idempotence on the already
normalized result of `15/01/2024`, and separator invariance of
`15/01/2024` vs `15-01-2024`. -/
theorem parseDate_idem_and_sep_invariant_witness :
    (parseDateCL noDateFallback
        (parseDateCL noDateFallback ("15/01/2024".toList)) =
      parseDateCL noDateFallback ("15/01/2024".toList)) ∧
    (parseDateCL noDateFallback
        (['1', '5'] ++ '/' :: (['0', '1'] ++ '/' :: ['2', '0', '2', '4'])) =
      parseDateCL noDateFallback
        (['1', '5'] ++ '-' :: (['0', '1'] ++ '-' :: ['2', '0', '2', '4']))) :=
  ⟨parseDate_idem_and_sep_invariant.1 noDateFallback
      (fun s r h => by simp [noDateFallback] at h) ("15/01/2024".toList),
    parseDate_idem_and_sep_invariant.2 noDateFallback
      ['1', '5'] ['0', '1'] ['2', '0', '2', '4']
      (by decide) (by decide) (by decide) (by decide) (by decide) (by decide)
      (by decide) (by decide)⟩

/-! ### Amount parsing (`parseAmount`, `determineDebitCredit` in
`src/lib/utils.ts`) -/

/-- Character class of the replace step
`cleaned.replace(/[₹$€£\s]/g, '')`. -/
def isCurrencyOrWs (c : Char) : Bool :=
  c == '₹' || c == '$' || c == '€' || c == '£' || isWS c

/-- Case-insensitive test for a two-character `dr`/`cr` suffix pair. -/
def isDrCrPair (c1 c2 : Char) : Bool :=
  (c1.toLower == 'd' || c1.toLower == 'c') && c2.toLower == 'r'

/-- Model of `cleaned.replace(/(dr\.?|cr\.?)$/i, '')`: strip a trailing
`dr`, `cr`, `dr.` or `cr.` (case-insensitive). -/
def stripDrCr (l : List Char) : List Char :=
  match l.reverse with
  | '.' :: c2 :: c1 :: rest => if isDrCrPair c1 c2 then rest.reverse else l
  | c2 :: c1 :: rest => if isDrCrPair c1 c2 then rest.reverse else l
  | _ => l

/-- Optional well-formed exponent suffix `e`/`E` `[+-]?` digits; JS
`parseFloat` only honours the exponent when at least one digit follows,
otherwise it keeps the longest valid prefix without it. -/
def parseExpOpt (l : List Char) : Option Int :=
  match l with
  | c :: rest =>
    if c == 'e' || c == 'E' then
      match rest with
      | '+' :: r =>
        let ds := r.takeWhile Char.isDigit
        if ds.length = 0 then none else some (digitsToNat ds : Int)
      | '-' :: r =>
        let ds := r.takeWhile Char.isDigit
        if ds.length = 0 then none else some (-(digitsToNat ds : Int))
      | r =>
        let ds := r.takeWhile Char.isDigit
        if ds.length = 0 then none else some (digitsToNat ds : Int)
    else none
  | [] => none

/-- Assemble the rational value of a decimal literal from its sign,
integer-part digits, fraction digits and a possible exponent suffix in
the remaining text: `±(ip.fp) × 10^e`, built with integer arithmetic and
`mkRat`. -/
def buildFloat (neg : Bool) (ip fp rest : List Char) : Option Rat :=
  if ip.length = 0 ∧ fp.length = 0 then none
  else
    let mantissa : Int := (digitsToNat ip * 10 ^ fp.length + digitsToNat fp : Nat)
    let sm : Int := if neg then -mantissa else mantissa
    let e : Int := (parseExpOpt rest).getD 0
    some (if 0 ≤ e then mkRat (sm * (10 : Int) ^ e.toNat) (10 ^ fp.length)
          else mkRat sm (10 ^ fp.length * 10 ^ (-e).toNat))

/-- Model of JS `parseFloat` on decimal literals (optional sign, integer
part, optional fraction, optional exponent), reading the longest valid
prefix and returning `none` where JS returns `NaN`. Exact rational
arithmetic stands in for binary floating point; the `Infinity` literal
and leading whitespace (removed earlier by the cleaning steps) are not
modelled. -/
def parseFloatQ (l : List Char) : Option Rat :=
  let neg : Bool := match l with
    | '-' :: _ => true
    | _ => false
  let l1 : List Char := match l with
    | '+' :: r => r
    | '-' :: r => r
    | r => r
  let ip := l1.takeWhile Char.isDigit
  let l2 := l1.dropWhile Char.isDigit
  match l2 with
  | '.' :: r => buildFloat neg ip (r.takeWhile Char.isDigit) (r.dropWhile Char.isDigit)
  | _ => buildFloat neg ip [] l2

/-- Model of JS `Math.abs`. -/
def jsAbs (q : Rat) : Rat := if q < 0 then -q else q

/-- Embedding of `parseAmount` from `src/lib/utils.ts` on a string
argument: falsy (empty) input yields 0; otherwise trim, delete currency
symbols and whitespace, delete commas, strip a `Dr`/`Cr` suffix, parse
the number and return its absolute value (`NaN` becomes 0). The
source's `isDr`/`isCr` locals are computed but never used, so they have
no counterpart here. -/
def parseAmountCL (s : List Char) : Rat :=
  if s = [] then 0
  else
    let c1 := (jsTrim s).filter (fun c => !(isCurrencyOrWs c))
    let c2 := c1.filter (fun c => !(c == ','))
    let c3 := stripDrCr c2
    match parseFloatQ c3 with
    | none => 0
    | some q => jsAbs q

/-- The `string | number` argument type of `parseAmount` and
`determineDebitCredit`. -/
inductive AmountInput where
  | str : List Char → AmountInput
  | num : Rat → AmountInput

/-- Embedding of `parseAmount`: a number argument short-circuits to its
absolute value. -/
def parseAmount : AmountInput → Rat
  | .num q => jsAbs q
  | .str s => parseAmountCL s

example : parseAmountCL ("1,00,000".toList) = 100000 := by decide
example : parseAmountCL ("100,000".toList) = 100000 := by decide
example : parseAmountCL ("-5000".toList) = 5000 := by decide
example : parseAmountCL ("5000 Cr".toList) = 5000 := by decide
example : parseAmountCL ("250 Dr".toList) = 250 := by decide
example : parseAmountCL ("₹1,500".toList) = 1500 := by decide
example : parseAmountCL ("abc".toList) = 0 := by decide
example : parseAmountCL ("".toList) = 0 := by decide

/-- Claim C8: amount parsing strips currency symbols and both Western
and Indian thousands separators and an optional trailing `Dr`/`Cr`
suffix, returns the absolute value of the number left by that cleaning
pipeline, and yields 0 on non-numeric input. -/
theorem parseAmount_spec :
    parseAmountCL ("1,00,000".toList) = 100000 ∧
    parseAmountCL ("100,000".toList) = 100000 ∧
    parseAmountCL ("-5000".toList) = 5000 ∧
    parseAmountCL ("5000 Cr".toList) = 5000 ∧
    parseAmountCL ("₹1,500".toList) = 1500 ∧
    (∀ s q,
      parseFloatQ (stripDrCr
          (((jsTrim s).filter (fun c => !(isCurrencyOrWs c))).filter
            (fun c => !(c == ',')))) = some q →
      parseAmountCL s = jsAbs q) ∧
    (∀ s,
      parseFloatQ (stripDrCr
          (((jsTrim s).filter (fun c => !(isCurrencyOrWs c))).filter
            (fun c => !(c == ',')))) = none →
      parseAmountCL s = 0) := by
  refine ⟨by decide, by decide, by decide, by decide, by decide, ?_, ?_⟩
  · intro s q h
    by_cases hs : s = []
    · subst hs
      have hnone : parseFloatQ (stripDrCr
          (((jsTrim ([] : List Char)).filter (fun c => !(isCurrencyOrWs c))).filter
            (fun c => !(c == ',')))) = none := by decide
      rw [hnone] at h
      simp at h
    · rw [parseAmountCL]
      simp only [if_neg hs, h]
  · intro s h
    by_cases hs : s = []
    · subst hs; rfl
    · rw [parseAmountCL]
      simp only [if_neg hs, h]

/-- Witness for claim C8's quantified clauses at concrete inputs. -/
theorem parseAmount_spec_witness :
    parseAmountCL ("7 Dr".toList) = jsAbs 7 ∧
      parseAmountCL ("xyz".toList) = 0 :=
  ⟨parseAmount_spec.2.2.2.2.2.1 ("7 Dr".toList) 7 (by decide),
    parseAmount_spec.2.2.2.2.2.2 ("xyz".toList) (by decide)⟩

/-- Model of JS `String.prototype.toLowerCase` (ASCII). -/
def jsToLower (l : List Char) : List Char := l.map Char.toLower

/-- Bool test that `sub` is a prefix of `l`. -/
def hasPrefixCL : List Char → List Char → Bool
  | [], _ => true
  | _ :: _, [] => false
  | a :: s, b :: t => a == b && hasPrefixCL s t

/-- Model of JS `String.prototype.includes`. -/
def containsCL : List Char → List Char → Bool
  | [], sub => sub.isEmpty
  | a :: r, sub => hasPrefixCL sub (a :: r) || containsCL r sub

/-- Embedding of `determineDebitCredit` from `src/lib/utils.ts`,
returning the `(debit, credit)` pair. For a numeric argument,
`amountStr.toString()` never contains `dr`/`cr` and starts with `'-'`
exactly when the number is negative, so those string tests collapse to
the sign test; for positive numbers every branch falls through to the
default credit. -/
def determineDebitCredit (inp : AmountInput) (typeHint : Option (List Char)) :
    Rat × Rat :=
  let amount := parseAmount inp
  let hint := jsToLower (typeHint.getD [])
  if containsCL hint ("dr".toList) || containsCL hint ("debit".toList) ||
      containsCL hint ("withdrawal".toList) then
    (amount, 0)
  else if containsCL hint ("cr".toList) || containsCL hint ("credit".toList) ||
      containsCL hint ("deposit".toList) then
    (0, amount)
  else
    match inp with
    | .str s =>
      let amountString := jsToLower s
      if containsCL amountString ("dr".toList) ||
          (match amountString with | '-' :: _ => true | _ => false) then
        (amount, 0)
      else if containsCL amountString ("cr".toList) then (0, amount)
      else (0, amount)
    | .num q => if q < 0 then (amount, 0) else (0, amount)

example :
    determineDebitCredit (.str ("500".toList)) (some ("Dr".toList)) =
      (500, 0) := by decide
example :
    determineDebitCredit (.str ("500 Cr".toList)) none = (0, 500) := by decide
example :
    determineDebitCredit (.str ("-500".toList)) none = (500, 0) := by decide
example : determineDebitCredit (.num (-500)) none = (500, 0) := by decide
example : determineDebitCredit (.num 500) none = (0, 500) := by decide

/-- Claim C10: `determineDebitCredit` always zeroes at least one side of
the `(debit, credit)` pair, and the two sides sum to `parseAmount` of
the input — so the non-zero side, when present, is exactly the parsed
amount, and both sides can never be simultaneously non-zero. -/
theorem determineDebitCredit_one_sided
    (inp : AmountInput) (typeHint : Option (List Char)) :
    (determineDebitCredit inp typeHint).1 +
        (determineDebitCredit inp typeHint).2 = parseAmount inp ∧
    ((determineDebitCredit inp typeHint).1 = 0 ∨
      (determineDebitCredit inp typeHint).2 = 0) := by
  rcases inp with s | q <;>
    · unfold determineDebitCredit
      dsimp only
      split_ifs <;> simp

/-! ### Chunker (`splitPdfIntoChunks` in the streaming PDF route) -/

/-- Loop body of `splitPdfIntoChunks`: `for (startPage = 0; startPage <
totalPages; startPage += step)` with `endPage = min(startPage +
pagesPerChunk, totalPages)` and the early `break` once `endPage ===
totalPages`. Chunks are represented by their half-open page range
`(startPage, endPage)`. The `fuel` argument only bounds recursion; with
`1 ≤ k` a fuel of `total` is never exhausted (with `k = 0` the JS loop
would not terminate). The source's inner `if (startPage >= totalPages)
break` is unreachable under the loop guard and has no counterpart. -/
def chunkLoopFuel : Nat → Nat → Nat → Nat → List (Nat × Nat)
  | 0, _, _, _ => []
  | fuel + 1, total, k, start =>
    if start < total then
      let endP := if start + k > total then total else start + k
      if endP = total then [(start, endP)]
      else (start, endP) :: chunkLoopFuel fuel total k (start + k)
    else []

/-- Embedding of `splitPdfIntoChunks` (page-range view): chunking a
`total`-page document into pieces of `k` pages. -/
def splitPdfIntoChunks (total k : Nat) : List (Nat × Nat) :=
  chunkLoopFuel total total k 0

/-- The pages covered by one chunk, in order. -/
def chunkPages (p : Nat × Nat) : List Nat := List.range' p.1 (p.2 - p.1)

example : splitPdfIntoChunks 5 2 = [(0, 2), (2, 4), (4, 5)] := by decide
example : splitPdfIntoChunks 0 2 = [] := by decide
example : splitPdfIntoChunks 4 2 = [(0, 2), (2, 4)] := by decide
example : splitPdfIntoChunks 1 2 = [(0, 1)] := by decide

theorem range'_append_consec (s m n : Nat) :
    List.range' s m ++ List.range' (s + m) n = List.range' s (m + n) := by
  have h := List.range'_append s m n 1
  rw [one_mul] at h
  rw [h, Nat.add_comm]

theorem chunkLoopFuel_pages (fuel : Nat) :
    ∀ total k start, 1 ≤ k → total - start ≤ fuel * k →
      ((chunkLoopFuel fuel total k start).map chunkPages).flatten =
        List.range' start (total - start) := by
  induction fuel with
  | zero =>
    intro total k start hk hfuel
    have : total - start = 0 := by omega
    simp [chunkLoopFuel, this]
  | succ fuel ih =>
    intro total k start hk hfuel
    rw [chunkLoopFuel]
    by_cases hlt : start < total
    · rw [if_pos hlt]
      by_cases hend : (if start + k > total then total else start + k) = total
      · rw [if_pos hend, hend]
        simp [chunkPages]
      · rw [if_neg hend]
        have hsk : start + k < total := by
          by_cases hgt : start + k > total
          · rw [if_pos hgt] at hend; omega
          · rw [if_neg hgt] at hend; omega
        have hendP : (if start + k > total then total else start + k) =
            start + k := by
          rw [if_neg (by omega)]
        rw [hendP]
        have hrec : total - (start + k) ≤ fuel * k := by
          have hmul : (fuel + 1) * k = fuel * k + k := by ring
          rw [hmul] at hfuel
          omega
        simp only [List.map_cons, List.flatten_cons]
        rw [ih total k (start + k) hk hrec]
        show chunkPages (start, start + k) ++
          List.range' (start + k) (total - (start + k)) = _
        have : chunkPages (start, start + k) = List.range' start k := by
          simp [chunkPages]
        rw [this, range'_append_consec]
        congr 1
        omega
    · rw [if_neg hlt]
      have : total - start = 0 := by omega
      simp [this]

theorem chunkLoopFuel_length (fuel : Nat) :
    ∀ total k start, 1 ≤ k → total - start ≤ fuel * k →
      (chunkLoopFuel fuel total k start).length =
        (total - start + k - 1) / k := by
  induction fuel with
  | zero =>
    intro total k start hk hfuel
    have h0 : total - start = 0 := by omega
    rw [chunkLoopFuel]
    simp only [List.length_nil, h0]
    rw [Nat.zero_add, Nat.div_eq_of_lt (by omega)]
  | succ fuel ih =>
    intro total k start hk hfuel
    rw [chunkLoopFuel]
    by_cases hlt : start < total
    · rw [if_pos hlt]
      by_cases hend : (if start + k > total then total else start + k) = total
      · rw [if_pos hend]
        have hm1 : 1 ≤ total - start := by omega
        have hm2 : total - start ≤ k := by
          by_cases hgt : start + k > total
          · omega
          · rw [if_neg hgt] at hend; omega
        have he : total - start + k - 1 = (total - start - 1) + k := by omega
        rw [List.length_singleton, he, Nat.add_div_right _ (by omega)]
        rw [Nat.div_eq_of_lt (by omega)]
      · rw [if_neg hend]
        have hsk : start + k < total := by
          by_cases hgt : start + k > total
          · rw [if_pos hgt] at hend; omega
          · rw [if_neg hgt] at hend; omega
        have hrec : total - (start + k) ≤ fuel * k := by
          have hmul : (fuel + 1) * k = fuel * k + k := by ring
          rw [hmul] at hfuel
          omega
        rw [List.length_cons, ih total k (start + k) hk hrec]
        have h1 : total - (start + k) + k - 1 = total - start - 1 := by omega
        have h2 : total - start + k - 1 = (total - start - 1) + k := by omega
        rw [h1, h2, Nat.add_div_right _ (by omega)]
    · rw [if_neg hlt]
      have h0 : total - start = 0 := by omega
      simp only [List.length_nil, h0]
      rw [Nat.zero_add, Nat.div_eq_of_lt (by omega)]

/-- Claim C3: for every page count `N` and chunk size `k ≥ 1`, the
chunker yields exactly `⌈N/k⌉` chunks whose page ranges, concatenated in
order, are exactly the pages `0, …, N-1` — covering `[0,N)` in order
with no overlap and no gap; `N = 0` yields the empty sequence. -/
theorem splitPdfIntoChunks_spec (n k : Nat) (hk : 1 ≤ k) :
    (splitPdfIntoChunks n k).length = (n + k - 1) / k ∧
    ((splitPdfIntoChunks n k).map chunkPages).flatten = List.range n ∧
    splitPdfIntoChunks 0 k = [] := by
  have hfuel : n - 0 ≤ n * k := by
    calc n - 0 = n := by omega
    _ = n * 1 := by omega
    _ ≤ n * k := Nat.mul_le_mul_left n hk
  refine ⟨?_, ?_, ?_⟩
  · have := chunkLoopFuel_length n n k 0 hk hfuel
    simpa [splitPdfIntoChunks] using this
  · have := chunkLoopFuel_pages n n k 0 hk hfuel
    rw [splitPdfIntoChunks, this, List.range_eq_range', Nat.sub_zero]
  · rfl

/-- Witness for claim C3 at `N = 5`, `k = 2`: three chunks `[0,2)`,
`[2,4)`, `[4,5)` covering exactly the pages `0–4`. -/
theorem splitPdfIntoChunks_spec_witness :
    (splitPdfIntoChunks 5 2).length = (5 + 2 - 1) / 2 ∧
    ((splitPdfIntoChunks 5 2).map chunkPages).flatten = List.range 5 ∧
    splitPdfIntoChunks 0 2 = [] :=
  splitPdfIntoChunks_spec 5 2 (by decide)

/-! ### Per-chunk retry loop of the streaming PDF route (`POST`) -/

/-- Outcome of one extraction attempt for a chunk, as classified by the
catch block: success, an error whose message matches the rate-limit
signature (`'429'`, `'Quota'` or `'rate_limit'`), or any other error. -/
inductive Outcome where
  | success : Outcome
  | rateLimited : Outcome
  | genericFail : Outcome
deriving DecidableEq

/-- Final disposition of one chunk: processed successfully, or abandoned
— with `warned = true` when the `Skipped chunk …` warning was pushed
(the `retries > MAX_RETRIES` branch) and `warned = false` when the
`while` guard itself ended the loop. -/
inductive ChunkResult where
  | succeeded : ChunkResult
  | skipped : Bool → ChunkResult
deriving DecidableEq

/-- The retry budget `MAX_RETRIES = 2` of the streaming PDF route. -/
def MAX_RETRIES : Nat := 2

/-- Embedding of the per-chunk loop
`while (!chunkSuccess && retries <= MAX_RETRIES)`: each iteration
consumes the next attempt outcome from the oracle list. On success the
loop ends; on any error `retries++` runs first, then a rate-limit error
waits and `continue`s (back to the guard), while a generic error breaks
with a warning once `retries > MAX_RETRIES`. `none` means the oracle
list was too short to decide the loop. -/
def runChunkLoop (maxRetries retries : Nat) (attempts : List Outcome) :
    Option ChunkResult :=
  if maxRetries < retries then some (.skipped false)
  else
    match attempts with
    | [] => none
    | .success :: _ => some .succeeded
    | .rateLimited :: rest => runChunkLoop maxRetries (retries + 1) rest
    | .genericFail :: rest =>
      if maxRetries < retries + 1 then some (.skipped true)
      else runChunkLoop maxRetries (retries + 1) rest

example : runChunkLoop MAX_RETRIES 0 [.success] = some .succeeded := by decide
example : runChunkLoop MAX_RETRIES 0 [.genericFail, .genericFail, .genericFail]
    = some (.skipped true) := by decide
example : runChunkLoop MAX_RETRIES 0 [.genericFail, .genericFail, .success]
    = some .succeeded := by decide
example : runChunkLoop MAX_RETRIES 0
    [.rateLimited, .rateLimited, .success] = some .succeeded := by decide

/-- Claim C1 counterexample: three consecutive rate-limit failures
exhaust the retry budget and the chunk is abandoned (without even a skip
warning) — a fourth attempt that would have succeeded is never made, so
rate-limit failures are not retried indefinitely. -/
theorem rateLimit_exhausts_budget :
    runChunkLoop MAX_RETRIES 0
        [.rateLimited, .rateLimited, .rateLimited, .success] =
      some (.skipped false) ∧
    runChunkLoop MAX_RETRIES 0
        [.rateLimited, .rateLimited, .rateLimited, .success] ≠
      some .succeeded := by
  constructor
  · decide
  · decide

theorem runChunkLoop_rateLimited_skip :
    ∀ (j m r : Nat) (rest : List Outcome), m + 1 ≤ r + j →
      runChunkLoop m r (List.replicate j .rateLimited ++ rest) =
        some (.skipped false) := by
  intro j
  induction j with
  | zero =>
    intro m r rest h
    rw [List.replicate_zero, List.nil_append, runChunkLoop.eq_def,
      if_pos (by omega)]
  | succ j ih =>
    intro m r rest h
    by_cases hr : m < r
    · rw [runChunkLoop.eq_def, if_pos hr]
    · rw [List.replicate_succ, List.cons_append, runChunkLoop.eq_def, if_neg hr]
      exact ih m (r + 1) rest (by omega)

theorem runChunkLoop_rateLimited_succeeds :
    ∀ (j m r : Nat), r + j ≤ m →
      runChunkLoop m r (List.replicate j .rateLimited ++ [.success]) =
        some .succeeded := by
  intro j
  induction j with
  | zero =>
    intro m r h
    rw [List.replicate_zero, List.nil_append, runChunkLoop.eq_def,
      if_neg (by omega)]
  | succ j ih =>
    intro m r h
    rw [List.replicate_succ, List.cons_append, runChunkLoop.eq_def,
      if_neg (by omega)]
    exact ih m (r + 1) (by omega)

/-- Claim C1 (amended): rate-limit failures do count against the bounded
retry budget — each one increments the retry counter before the
`continue`, so a chunk survives at most `MAX_RETRIES` consecutive
rate-limit failures before a successful attempt; one more and the loop
guard abandons the chunk, without pushing the skip warning that a
generic-failure exhaustion would push. -/
theorem rateLimit_counts_against_budget :
    (∀ (j : Nat) (rest : List Outcome), MAX_RETRIES < j →
      runChunkLoop MAX_RETRIES 0 (List.replicate j .rateLimited ++ rest) =
        some (.skipped false)) ∧
    (∀ j : Nat, j ≤ MAX_RETRIES →
      runChunkLoop MAX_RETRIES 0 (List.replicate j .rateLimited ++ [.success]) =
        some .succeeded) := by
  constructor
  · intro j rest h
    exact runChunkLoop_rateLimited_skip j MAX_RETRIES 0 rest (by omega)
  · intro j h
    exact runChunkLoop_rateLimited_succeeds j MAX_RETRIES 0 (by omega)

/-- Witness for claim C1's amended theorem: three rate-limit failures
abandon the chunk silently; two followed by success still succeed. -/
theorem rateLimit_counts_against_budget_witness :
    runChunkLoop MAX_RETRIES 0
        (List.replicate 3 .rateLimited ++ [.success]) = some (.skipped false) ∧
    runChunkLoop MAX_RETRIES 0
        (List.replicate 2 .rateLimited ++ [.success]) = some .succeeded :=
  ⟨rateLimit_counts_against_budget.1 3 [.success] (by decide),
    rateLimit_counts_against_budget.2 2 (by decide)⟩

/-! ### Bank-name detection in the streaming PDF route (`POST`) -/

/-- JS falsiness of the `bankName` values involved: `undefined`
(`none`) and the empty string are falsy. -/
def bankNameFalsy : Option String → Bool
  | none => true
  | some s => s.isEmpty

/-- One chunk's effect on the `bankName` variable:
`if (!bankName && parsed.bankName) bankName = parsed.bankName`. -/
def updateBankName (cur parsed : Option String) : Option String :=
  if bankNameFalsy cur && !(bankNameFalsy parsed) then parsed else cur

/-- The `bankName` carried by the final `complete` event: the fold of
the per-chunk assignments over the successive parsed responses'
`bankName` fields (failed chunks contribute nothing and are not in the
list), starting from `undefined`. -/
def finalBankName (l : List (Option String)) : Option String :=
  l.foldl updateBankName none

/-- The first non-falsy bank name offered by any chunk, in order. -/
def firstNonEmptyName : List (Option String) → Option String
  | [] => none
  | p :: r => if bankNameFalsy p then firstNonEmptyName r else p

theorem foldl_updateBankName_frozen :
    ∀ (l : List (Option String)) (a : Option String),
      bankNameFalsy a = false → l.foldl updateBankName a = a := by
  intro l
  induction l with
  | nil => intro a ha; rfl
  | cons p r ih =>
    intro a ha
    have : updateBankName a p = a := by
      rw [updateBankName, ha]
      simp
    rw [List.foldl_cons, this]
    exact ih a ha

/-- Claim C9: the detected bank name is write-once — once a non-empty
value is set, later chunks never overwrite it — and the value carried to
the `complete` event is the first non-empty `bankName` any chunk's
parsed response provided. -/
theorem bankName_first_nonEmpty_wins :
    (∀ (l : List (Option String)) (a : Option String),
      bankNameFalsy a = false → l.foldl updateBankName a = a) ∧
    (∀ l : List (Option String), finalBankName l = firstNonEmptyName l) := by
  constructor
  · exact foldl_updateBankName_frozen
  · intro l
    induction l with
    | nil => rfl
    | cons p r ih =>
      rw [finalBankName, List.foldl_cons, firstNonEmptyName]
      by_cases hp : bankNameFalsy p = true
      · have : updateBankName none p = none := by
          rw [updateBankName, hp]
          simp
        rw [this, if_pos hp]
        exact ih
      · have hp' : bankNameFalsy p = false := by simpa using hp
        have : updateBankName none p = p := by
          rw [updateBankName, hp']
          simp [bankNameFalsy]
        rw [this, if_neg (by simp [hp'])]
        exact foldl_updateBankName_frozen r p hp'

/-- Witness for claim C9: with chunk responses
`[none, some "", some "HDFC", some "SBI"]` the frozen-accumulator clause
applies at `some "HDFC"`, and the folded result is `some "HDFC"`, the
first non-empty value. -/
theorem bankName_first_nonEmpty_wins_witness :
    ([some "SBI"].foldl updateBankName (some "HDFC") = some "HDFC") ∧
    finalBankName [none, some "", some "HDFC", some "SBI"] =
      firstNonEmptyName [none, some "", some "HDFC", some "SBI"] :=
  ⟨bankName_first_nonEmpty_wins.1 [some "SBI"] (some "HDFC") (by decide),
    bankName_first_nonEmpty_wins.2 [none, some "", some "HDFC", some "SBI"]⟩

/-! ### Response recovery (`parseAIResponse` in the streaming PDF route
and in `src/app/api/parse-image/route.ts`) -/

/-- Index of the first occurrence of `pat` in a character list. -/
def findSub (pat : List Char) : List Char → Option Nat
  | [] => if pat.isEmpty then some 0 else none
  | a :: r =>
    if hasPrefixCL pat (a :: r) then some 0
    else (findSub pat r).map (· + 1)

/-- Model of the fenced-code-block regex
`/(three backticks)(?:json)?\s*([\s\S]*?)(three backticks)/` for the
first fence: take the text after the first fence opener, drop a literal
`json` tag and leading whitespace, and cut at the next fence; `none`
when no complete fence exists (the engine's retry at later openers is
not modelled — no claim depends on multi-fence inputs). -/
def fenceExtract (l : List Char) : Option (List Char) :=
  match findSub ("```".toList) l with
  | none => none
  | some i =>
    let after := l.drop (i + 3)
    let afterJson :=
      if hasPrefixCL ("json".toList) after then after.drop 4 else after
    let body := afterJson.dropWhile isWS
    match findSub ("```".toList) body with
    | none => none
    | some j => some (body.take j)

/-- The brace-depth scan of the streaming route's `parseAIResponse`:
record the index of the first `'{'`, count depth up and down (the count
may go negative on stray `'}'`, as in the source), and stop at the index
one past the `'}'` that returns the count to zero. -/
def braceScanGo : List Char → Int → Option Nat → Nat → Option (Nat × Nat)
  | [], _, _, _ => none
  | c :: rest, depth, sIdx, i =>
    if c = '{' then
      braceScanGo rest (depth + 1) (if sIdx.isSome then sIdx else some i) (i + 1)
    else if c = '}' then
      match sIdx with
      | some s =>
        if depth - 1 = 0 then some (s, i + 1)
        else braceScanGo rest (depth - 1) sIdx (i + 1)
      | none => braceScanGo rest (depth - 1) sIdx (i + 1)
    else braceScanGo rest depth sIdx (i + 1)

/-- Slice the balanced `{…}` span out of the text when the scan found
one, else keep the text unchanged
(`if (startIdx !== -1 && endIdx !== -1) jsonStr = substring(...)`). -/
def braceExtract (l : List Char) : List Char :=
  match braceScanGo l 0 none 0 with
  | some (s, e) => (l.drop s).take (e - s)
  | none => l

/-- Index of the first occurrence of a character. -/
def firstIdxOf (c : Char) : List Char → Option Nat
  | [] => none
  | a :: r => if a == c then some 0 else (firstIdxOf c r).map (· + 1)

/-- Index of the last occurrence of a character. -/
def lastIdxOf (c : Char) (l : List Char) : Option Nat :=
  (firstIdxOf c l.reverse).map (fun k => l.length - 1 - k)

/-- Model of a greedy `/o[\s\S]*c/` match: the slice from the first
`o` to the last `c` after it. -/
def spanMatch (o c : Char) (l : List Char) : Option (List Char) :=
  match firstIdxOf o l, lastIdxOf c l with
  | some i, some j => if i < j then some ((l.drop i).take (j + 1 - i)) else none
  | _, _ => none

/-- The `/\[[\s\S]*\]/` array match. -/
def arrayMatchCL (l : List Char) : Option (List Char) := spanMatch '[' ']' l

/-- The `/\{[\s\S]*\}/` object match of the image route. -/
def objectMatchCL (l : List Char) : Option (List Char) := spanMatch '{' '}' l

/-- The decoded view of a successful `JSON.parse` of an AI reply:
its `transactions` array (raw items of type `τ`) and optional
`bankName`. -/
structure ParsedResp (τ : Type) where
  transactions : List τ
  bankName : Option String
deriving DecidableEq

/-- Embedding of `parseAIResponse` from the streaming PDF route.
`JSON.parse` is a host capability, passed in as two oracles: `objParse`
(parse an object and project the `transactions`/`bankName` view) and
`arrParse` (parse a bare array); `none` models a thrown `SyntaxError`,
which the source catches. The function is total: every failure path
degrades to an empty transaction list. -/
def parseAIResponse (τ : Type) (objParse : List Char → Option (ParsedResp τ))
    (arrParse : List Char → Option (List τ)) (responseText : List Char) :
    ParsedResp τ :=
  if responseText = [] ∨ jsTrim responseText = [] then ⟨[], none⟩
  else
    let jsonStr0 :=
      match fenceExtract responseText with
      | some inner => jsTrim inner
      | none => responseText
    let jsonStr := braceExtract jsonStr0
    match objParse jsonStr with
    | some parsed => parsed
    | none =>
      match arrayMatchCL responseText with
      | some arr =>
        match arrParse arr with
        | some txs => ⟨txs, none⟩
        | none => ⟨[], none⟩
      | none => ⟨[], none⟩

/-- Model of the image route's fallback regex
`/"transactions"\s*:\s*(\[[\s\S]*?\])/` at the first occurrence of the
`"transactions"` key: the bracketed value cut at the first `']'`. -/
def fallbackTransactionsArray (l : List Char) : Option (List Char) :=
  match findSub ("\"transactions\"".toList) l with
  | none => none
  | some i =>
    match (l.drop (i + 14)).dropWhile isWS with
    | ':' :: rest =>
      match rest.dropWhile isWS with
      | '[' :: inner =>
        match firstIdxOf ']' inner with
        | some j => some ('[' :: (inner.take j ++ [']']))
        | none => none
      | _ => none
    | _ => none

/-- Shared tail of the image route's `parseAIResponse`: try
`JSON.parse(jsonStr)`, then the `"transactions"` fallback regex on the
original text, and otherwise throw `Could not parse AI response as
JSON`. -/
def imageTryParse (τ : Type) (objParse : List Char → Option (ParsedResp τ))
    (arrParse : List Char → Option (List τ))
    (responseText jsonStr : List Char) : Except String (ParsedResp τ) :=
  match objParse jsonStr with
  | some parsed => .ok parsed
  | none =>
    match fallbackTransactionsArray responseText with
    | some arr =>
      match arrParse arr with
      | some txs => .ok ⟨txs, none⟩
      | none => .error "Could not parse AI response as JSON"
    | none => .error "Could not parse AI response as JSON"

/-- Embedding of `parseAIResponse` from
`src/app/api/parse-image/route.ts`, which — unlike the streaming route's
namesake — throws: on empty input, on an unparsable bare-array match
(that `JSON.parse` call sits outside any `try`), and when every recovery
step fails. -/
def parseAIResponseImage (τ : Type)
    (objParse : List Char → Option (ParsedResp τ))
    (arrParse : List Char → Option (List τ)) (responseText : List Char) :
    Except String (ParsedResp τ) :=
  if responseText = [] ∨ jsTrim responseText = [] then
    .error "AI returned empty response"
  else
    let jsonStr0 :=
      match fenceExtract responseText with
      | some inner => jsTrim inner
      | none => responseText
    match objectMatchCL jsonStr0 with
    | some obj => imageTryParse τ objParse arrParse responseText obj
    | none =>
      match arrayMatchCL jsonStr0 with
      | some arr =>
        match arrParse arr with
        | some txs => .ok ⟨txs, none⟩
        | none => .error "SyntaxError: Unexpected token in JSON"
      | none => imageTryParse τ objParse arrParse responseText jsonStr0

/-- Claim C2 counterexample: the image route's `parseAIResponse` (also
cited by the claim) throws `AI returned empty response` on the empty
string instead of returning a result object. -/
theorem parseAIResponseImage_throws_on_empty :
    parseAIResponseImage Unit (fun _ => none) (fun _ => none) [] =
      .error "AI returned empty response" := rfl

/-- Claim C2 (amended, scoped to the streaming PDF route whose
recoverer the spec describes): that `parseAIResponse` is total by
construction and (1) maps empty input to an empty result for any
oracles, (2) returns an empty transaction list whenever every parse
attempt fails, and (3) on prose-wrapped fenced JSON it consults the
object parser on exactly the brace-extracted fenced interior, returning
its parse. -/
theorem parseAIResponse_total_and_empty_on_failure :
    (∀ (τ : Type) (op : List Char → Option (ParsedResp τ))
      (ap : List Char → Option (List τ)),
      parseAIResponse τ op ap [] = ⟨[], none⟩) ∧
    (∀ (τ : Type) (op : List Char → Option (ParsedResp τ))
      (ap : List Char → Option (List τ)) (s : List Char),
      (∀ t, op t = none) → (∀ t, ap t = none) →
      parseAIResponse τ op ap s = ⟨[], none⟩) ∧
    (∀ (τ : Type) (op : List Char → Option (ParsedResp τ))
      (ap : List Char → Option (List τ)) (r : ParsedResp τ),
      op ("\x7b\"a\": 1\x7d".toList) = some r →
      parseAIResponse τ op ap
        ("Sure! Here is the JSON:\n```json\n\x7b\"a\": 1\x7d\n```".toList) =
        r) := by
  refine ⟨?_, ?_, ?_⟩
  · intro τ op ap
    rfl
  · intro τ op ap s h1 h2
    rw [parseAIResponse]
    by_cases hc : s = [] ∨ jsTrim s = []
    · rw [if_pos hc]
    · rw [if_neg hc]
      dsimp only
      rw [h1]
      rcases harr : arrayMatchCL s with _ | arr
      · rfl
      · dsimp only
        rw [h2]
  · intro τ op ap r hop
    rw [parseAIResponse, if_neg (by decide)]
    dsimp only
    have hf : fenceExtract
        ("Sure! Here is the JSON:\n```json\n\x7b\"a\": 1\x7d\n```".toList) =
        some ("\x7b\"a\": 1\x7d\n".toList) := by decide
    rw [hf]
    have ht : jsTrim ("\x7b\"a\": 1\x7d\n".toList) =
        "\x7b\"a\": 1\x7d".toList := by decide
    dsimp only
    rw [ht]
    have hb : braceExtract ("\x7b\"a\": 1\x7d".toList) =
        "\x7b\"a\": 1\x7d".toList := by decide
    rw [hb, hop]

/-- Witness for claim C2's amended theorem: the all-parsers-fail clause
at a concrete prose input, and the fenced-recovery clause with an oracle
that recognizes the extracted object. -/
theorem parseAIResponse_total_and_empty_on_failure_witness :
    parseAIResponse Unit (fun _ => none) (fun _ => none)
        ("no json here at all".toList) = ⟨[], none⟩ ∧
    parseAIResponse Unit
        (fun t => if t = ("\x7b\"a\": 1\x7d".toList)
          then some ⟨[], some "X"⟩ else none)
        (fun _ => none)
        ("Sure! Here is the JSON:\n```json\n\x7b\"a\": 1\x7d\n```".toList) =
      ⟨[], some "X"⟩ :=
  ⟨parseAIResponse_total_and_empty_on_failure.2.1 Unit
      (fun _ => none) (fun _ => none) ("no json here at all".toList)
      (fun _ => rfl) (fun _ => rfl),
    parseAIResponse_total_and_empty_on_failure.2.2 Unit
      (fun t => if t = ("\x7b\"a\": 1\x7d".toList)
        then some ⟨[], some "X"⟩ else none)
      (fun _ => none) ⟨[], some "X"⟩ (by decide)⟩

/-! ### Data model (`src/lib/schema.ts`) and voucher generation
(`getVoucherType`, `findMatchingRule`, `generateVoucherXml` in
`src/lib/tally-xml.ts`) -/

/-- The `Transaction` shape of `TransactionSchema`: amounts are
non-negative numbers (modelled as `Rat`), `reference` / `balance` /
`bankName` optional. -/
structure Transaction where
  id : String
  date : String
  description : String
  reference : Option String
  debit : Rat
  credit : Rat
  balance : Option Rat
  currency : String
  bankName : Option String
deriving DecidableEq

/-- The three Tally voucher types. -/
inductive VoucherType where
  | Payment : VoucherType
  | Receipt : VoucherType
  | Contra : VoucherType
deriving DecidableEq

/-- A user categorization rule: keyword substrings, target ledger and an
optional forced voucher type. -/
structure LedgerRule where
  keywords : List String
  ledgerName : String
  voucherType : Option VoucherType
deriving DecidableEq

/-- Export options consumed by the voucher generator. -/
structure ExportOptions where
  bankName : String
  companyName : String
  suspenseLedger : String
  ledgerRules : List LedgerRule

/-- Embedding of `getVoucherType`: `Contra` when the lowercased
description contains `transfer` together with `self` or `own`, else
`Payment` when `debit > 0`, else `Receipt`. -/
def getVoucherType (tx : Transaction) : VoucherType :=
  let desc := jsToLower tx.description.toList
  if containsCL desc ("transfer".toList) &&
      (containsCL desc ("self".toList) || containsCL desc ("own".toList)) then
    .Contra
  else if 0 < tx.debit then .Payment
  else .Receipt

/-- Embedding of `findMatchingRule`: the first rule (in declaration
order) one of whose keywords occurs, case-insensitively, in the
description. -/
def findMatchingRule (tx : Transaction) (rules : List LedgerRule) :
    Option LedgerRule :=
  rules.find? (fun rule =>
    rule.keywords.any (fun kw =>
      containsCL (jsToLower tx.description.toList) (jsToLower kw.toList)))

/-- One `<ALLLEDGERENTRIES.LIST>` of a voucher: ledger name,
`ISDEEMEDPOSITIVE` flag and the serialized signed amount (the source
prints `-${amount.toFixed(2)}` for the debit entry and
`${amount.toFixed(2)}` for the credit entry). -/
structure LedgerEntry where
  ledgerName : String
  isDeemedPositive : Bool
  amount : Rat
deriving DecidableEq

/-- The fields `generateVoucherXml` serializes into one `<VOUCHER>`
fragment. -/
structure Voucher where
  remoteId : String
  vchtype : VoucherType
  date : String
  voucherNumber : Nat
  narration : String
  entries : List LedgerEntry
deriving DecidableEq

/-- Model of `formatTallyDate`: delete every dash from the date string
(the source applies a global dash-to-empty replace). -/
def formatTallyDate (s : String) : String :=
  String.mk (s.toList.filter (fun c => !(c == '-')))

/-- Embedding of `generateVoucherXml` as the structured voucher it
serializes. JS `||` fallbacks are modelled by their falsiness: an empty
rule ledger name falls back to the suspense ledger, an absent forced
type to `getVoucherType`; an empty reference contributes no `| Ref:`
narration suffix. The debit entry (counterparty when money moves out,
bank when money moves in) carries `-amount` and `ISDEEMEDPOSITIVE Yes`;
the credit entry carries `+amount`. -/
def generateVoucher (tx : Transaction) (options : ExportOptions)
    (voucherNumber : Nat) : Voucher :=
  let voucherType := getVoucherType tx
  let matchedRule := findMatchingRule tx options.ledgerRules
  let counterpartyLedger :=
    match matchedRule with
    | some rule =>
      if rule.ledgerName = "" then options.suspenseLedger else rule.ledgerName
    | none => options.suspenseLedger
  let finalVoucherType :=
    match matchedRule with
    | some rule =>
      match rule.voucherType with
      | some t => t
      | none => voucherType
    | none => voucherType
  let amount := if 0 < tx.debit then tx.debit else tx.credit
  let narration := tx.description ++
    (match tx.reference with
     | some r => if r = "" then "" else " | Ref: " ++ r
     | none => "")
  let debitLedger := if 0 < tx.debit then counterpartyLedger else options.bankName
  let creditLedger := if 0 < tx.debit then options.bankName else counterpartyLedger
  ⟨tx.id, finalVoucherType, formatTallyDate tx.date, voucherNumber, narration,
    [⟨debitLedger, true, -amount⟩, ⟨creditLedger, false, amount⟩]⟩

/-- Claim C4: every generated voucher carries two ledger entries whose
amounts are equal in magnitude and opposite in sign — the debited entry
(`ISDEEMEDPOSITIVE Yes`, listed first) serialized non-positive and the
credited entry non-negative — and its voucher type is the matched rule's
forced type when one exists, else `Contra` for a self/own-transfer
description, else `Payment` when `debit > 0`, else `Receipt`. -/
theorem generateVoucher_spec (tx : Transaction) (opts : ExportOptions)
    (n : Nat) (hdeb : 0 ≤ tx.debit) (hcred : 0 ≤ tx.credit) :
    ((generateVoucher tx opts n).entries.map LedgerEntry.amount =
      [-(if 0 < tx.debit then tx.debit else tx.credit),
        if 0 < tx.debit then tx.debit else tx.credit]) ∧
    ((generateVoucher tx opts n).entries.map LedgerEntry.isDeemedPositive =
      [true, false]) ∧
    (-(if 0 < tx.debit then tx.debit else tx.credit) ≤ 0 ∧
      0 ≤ (if 0 < tx.debit then tx.debit else tx.credit)) ∧
    (∀ rule t, findMatchingRule tx opts.ledgerRules = some rule →
      rule.voucherType = some t → (generateVoucher tx opts n).vchtype = t) ∧
    ((findMatchingRule tx opts.ledgerRules = none ∨
      (∃ rule, findMatchingRule tx opts.ledgerRules = some rule ∧
        rule.voucherType = none)) →
      (generateVoucher tx opts n).vchtype =
        (if containsCL (jsToLower tx.description.toList) ("transfer".toList) &&
            (containsCL (jsToLower tx.description.toList) ("self".toList) ||
              containsCL (jsToLower tx.description.toList) ("own".toList))
          then VoucherType.Contra
          else if 0 < tx.debit then VoucherType.Payment
          else VoucherType.Receipt)) := by
  refine ⟨rfl, rfl, ?_, ?_, ?_⟩
  · constructor
    · split_ifs with h
      · exact neg_nonpos.mpr hdeb
      · exact neg_nonpos.mpr hcred
    · split_ifs with h
      · exact hdeb
      · exact hcred
  · intro rule t hfind ht
    unfold generateVoucher
    dsimp only
    rw [hfind]
    dsimp only
    rw [ht]
  · intro hcase
    have hbody : (generateVoucher tx opts n).vchtype = getVoucherType tx := by
      unfold generateVoucher
      dsimp only
      rcases hcase with hnone | ⟨rule, hfind, ht⟩
      · rw [hnone]
      · rw [hfind]
        dsimp only
        rw [ht]
    rw [hbody]
    rfl

/-- Witness for claim C4 at a concrete credit-only transaction with no
matching rule: a `Receipt` voucher with amounts `[-25000, 25000]`. -/
theorem generateVoucher_spec_witness :
    ((generateVoucher
        ⟨"tx1", "2024-01-15", "NEFT CR FROM ABC COMPANY", some "N1234567890",
          0, 25000, none, "INR", none⟩
        ⟨"SBI", "My Company", "Suspense", []⟩ 1).entries.map
      LedgerEntry.amount =
      [-(if (0 : Rat) < 0 then (0 : Rat) else 25000),
        if (0 : Rat) < 0 then (0 : Rat) else 25000]) ∧
    ((generateVoucher
        ⟨"tx1", "2024-01-15", "NEFT CR FROM ABC COMPANY", some "N1234567890",
          0, 25000, none, "INR", none⟩
        ⟨"SBI", "My Company", "Suspense", []⟩ 1).vchtype =
      VoucherType.Receipt) := by
  constructor
  · exact (generateVoucher_spec
      ⟨"tx1", "2024-01-15", "NEFT CR FROM ABC COMPANY", some "N1234567890",
        0, 25000, none, "INR", none⟩
      ⟨"SBI", "My Company", "Suspense", []⟩ 1 (by decide) (by decide)).1
  · have h := (generateVoucher_spec
      ⟨"tx1", "2024-01-15", "NEFT CR FROM ABC COMPANY", some "N1234567890",
        0, 25000, none, "INR", none⟩
      ⟨"SBI", "My Company", "Suspense", []⟩ 1 (by decide) (by decide)).2.2.2.2
    rw [h (Or.inl (by decide))]
    decide

/-! ### Deduplication (`getDuplicateKey` / `findDuplicates` in
`src/lib/utils.ts`) -/

/-- Rendering of an amount into the duplicate key, standing in for JS
number-to-string conversion: it agrees with JS on integral values
(`"0"`, `"25000"`); non-integral values render as fractions rather than
decimals, which no claim depends on. -/
def ratKeyStr (q : Rat) : String :=
  if q.den = 1 then toString q.num
  else toString q.num ++ "/" ++ toString q.den

/-- Embedding of `getDuplicateKey`: the five fields joined with `'|'` —
date, lowercased-trimmed description, debit, credit and reference
(empty when absent). -/
def getDuplicateKey (tx : Transaction) : String :=
  tx.date ++ "|" ++ String.mk (jsTrim (jsToLower tx.description.toList)) ++
    "|" ++ ratKeyStr tx.debit ++ "|" ++ ratKeyStr tx.credit ++ "|" ++
    tx.reference.getD ""

/-- The composite key as the claim words it: the 5-tuple of fields,
before serialization. -/
def dupKeyTupleSpec (tx : Transaction) :
    String × String × Rat × Rat × String :=
  (tx.date, String.mk (jsTrim (jsToLower tx.description.toList)), tx.debit,
    tx.credit, tx.reference.getD "")

/-- `Map.get` over the association-list model of the `seen` map. -/
def lookupSeen (seen : List (String × List String)) (k : String) :
    Option (List String) :=
  (seen.find? (fun p => p.1 == k)).map Prod.snd

/-- Embedding of the `findDuplicates` loop. The `seen` map is an
association list updated by prepending (observationally equal to
`Map.set` under first-match lookup); the duplicate-id `Set` is a list
whose membership is what matters. Each transaction whose key was
already seen adds its own id and every previously seen id under that
key. -/
def findDuplicatesAux :
    List Transaction → List (String × List String) → List String → List String
  | [], _, dups => dups
  | tx :: rest, seen, dups =>
    let key := getDuplicateKey tx
    let existing := (lookupSeen seen key).getD []
    let dups' := if 0 < existing.length then tx.id :: (existing ++ dups) else dups
    findDuplicatesAux rest ((key, existing ++ [tx.id]) :: seen) dups'

/-- Embedding of `findDuplicates`. -/
def findDuplicates (l : List Transaction) : List String :=
  findDuplicatesAux l [] []

example :
    findDuplicates
      [⟨"A", "2024-01-01", "NEFT", none, 0, 100, none, "INR", none⟩,
       ⟨"B", "2024-01-01", "neft ", none, 0, 100, none, "INR", none⟩,
       ⟨"C", "2024-01-02", "ATM", none, 50, 0, none, "INR", none⟩] =
      ["B", "A"] := by decide

/-- Claim C6 counterexample: key comparison happens on the joined
string, so a `'|'` inside one description makes two transactions with
different field tuples collide — both are marked although each one's
composite key (as a tuple) collides with no other's. -/
theorem findDuplicates_marks_distinct_tuples :
    dupKeyTupleSpec
        ⟨"A", "2024-01-01", "x|1", none, 0, 2, none, "INR", none⟩ ≠
      dupKeyTupleSpec
        ⟨"B", "2024-01-01", "x", some "2|", 1, 0, none, "INR", none⟩ ∧
    getDuplicateKey
        ⟨"A", "2024-01-01", "x|1", none, 0, 2, none, "INR", none⟩ =
      getDuplicateKey
        ⟨"B", "2024-01-01", "x", some "2|", 1, 0, none, "INR", none⟩ ∧
    "A" ∈ findDuplicates
        [⟨"A", "2024-01-01", "x|1", none, 0, 2, none, "INR", none⟩,
         ⟨"B", "2024-01-01", "x", some "2|", 1, 0, none, "INR", none⟩] ∧
    "B" ∈ findDuplicates
        [⟨"A", "2024-01-01", "x|1", none, 0, 2, none, "INR", none⟩,
         ⟨"B", "2024-01-01", "x", some "2|", 1, 0, none, "INR", none⟩] := by
  refine ⟨by decide, by decide, by decide, by decide⟩

theorem findDuplicatesAux_cons (tx : Transaction) (rest : List Transaction)
    (seen : List (String × List String)) (dups : List String) :
    findDuplicatesAux (tx :: rest) seen dups =
      findDuplicatesAux rest
        ((getDuplicateKey tx,
          ((lookupSeen seen (getDuplicateKey tx)).getD []) ++ [tx.id]) :: seen)
        (if 0 < ((lookupSeen seen (getDuplicateKey tx)).getD []).length
         then tx.id :: (((lookupSeen seen (getDuplicateKey tx)).getD []) ++ dups)
         else dups) := rfl

theorem lookupSeen_cons (k' : String) (v : List String)
    (seen : List (String × List String)) (k : String) :
    lookupSeen ((k', v) :: seen) k =
      if k' = k then some v else lookupSeen seen k := by
  by_cases h : k' = k
  · rw [if_pos h]
    unfold lookupSeen
    rw [List.find?_cons_of_pos _ (by simp [h])]
    rfl
  · rw [if_neg h]
    unfold lookupSeen
    rw [List.find?_cons_of_neg _ (by simp [h])]

theorem findDuplicatesAux_mono :
    ∀ (l : List Transaction) (seen : List (String × List String))
      (dups : List String) (x : String),
      x ∈ dups → x ∈ findDuplicatesAux l seen dups := by
  intro l
  induction l with
  | nil => intro seen dups x hx; exact hx
  | cons tx rest ih =>
    intro seen dups x hx
    rw [findDuplicatesAux_cons]
    apply ih
    split_ifs
    · exact List.mem_cons_of_mem _ (List.mem_append_right _ hx)
    · exact hx

theorem findDuplicatesAux_seen :
    ∀ (l : List Transaction) (seen : List (String × List String))
      (dups : List String) (k : String) (ids : List String) (x : String),
      lookupSeen seen k = some ids → x ∈ ids →
      (∃ u ∈ l, getDuplicateKey u = k) →
      x ∈ findDuplicatesAux l seen dups := by
  intro l
  induction l with
  | nil =>
    intro seen dups k ids x hlook hx hwit
    obtain ⟨u, hu, _⟩ := hwit
    cases hu
  | cons tx rest ih =>
    intro seen dups k ids x hlook hx hwit
    rw [findDuplicatesAux_cons]
    by_cases hk : getDuplicateKey tx = k
    · have hex : (lookupSeen seen (getDuplicateKey tx)).getD [] = ids := by
        rw [hk, hlook]; rfl
      have hpos : 0 < ((lookupSeen seen (getDuplicateKey tx)).getD []).length := by
        rw [hex]
        exact List.length_pos.mpr (List.ne_nil_of_mem hx)
      rw [if_pos hpos]
      apply findDuplicatesAux_mono
      rw [hex]
      exact List.mem_cons_of_mem _ (List.mem_append_left _ hx)
    · obtain ⟨u, hu, hku⟩ := hwit
      rcases List.mem_cons.mp hu with he | hrest
      · exact absurd (he ▸ hku) hk
      · refine ih _ _ k ids x ?_ hx ⟨u, hrest, hku⟩
        rw [lookupSeen_cons, if_neg hk]
        exact hlook

theorem findDuplicatesAux_dupAt :
    ∀ (l : List Transaction) (seen : List (String × List String))
      (dups : List String) (u : Transaction),
      u ∈ l →
      (∃ ids, lookupSeen seen (getDuplicateKey u) = some ids ∧ ids ≠ []) →
      u.id ∈ findDuplicatesAux l seen dups := by
  intro l
  induction l with
  | nil => intro seen dups u hu; cases hu
  | cons tx rest ih =>
    intro seen dups u hu hlook
    obtain ⟨ids, hids, hne⟩ := hlook
    rw [findDuplicatesAux_cons]
    rcases List.mem_cons.mp hu with he | hrest
    · subst he
      have hex : (lookupSeen seen (getDuplicateKey u)).getD [] = ids := by
        rw [hids]; rfl
      have hpos : 0 < ((lookupSeen seen (getDuplicateKey u)).getD []).length := by
        rw [hex]
        exact List.length_pos.mpr hne
      rw [if_pos hpos]
      exact findDuplicatesAux_mono _ _ _ _ (List.mem_cons_self _ _)
    · by_cases hk : getDuplicateKey tx = getDuplicateKey u
      · refine ih _ _ u hrest ⟨((lookupSeen seen (getDuplicateKey tx)).getD []) ++
          [tx.id], ?_, by simp⟩
        rw [lookupSeen_cons, if_pos hk]
      · refine ih _ _ u hrest ⟨ids, ?_, hne⟩
        rw [lookupSeen_cons, if_neg hk]
        exact hids

theorem findDuplicates_both_marked_aux :
    ∀ (l1 : List Transaction) (seen : List (String × List String))
      (dups : List String) (a : Transaction) (l2 : List Transaction)
      (b : Transaction) (l3 : List Transaction),
      getDuplicateKey a = getDuplicateKey b →
      a.id ∈ findDuplicatesAux (l1 ++ a :: (l2 ++ b :: l3)) seen dups ∧
      b.id ∈ findDuplicatesAux (l1 ++ a :: (l2 ++ b :: l3)) seen dups := by
  intro l1
  induction l1 with
  | nil =>
    intro seen dups a l2 b l3 hab
    rw [List.nil_append, findDuplicatesAux_cons]
    constructor
    · refine findDuplicatesAux_seen _ _ _ (getDuplicateKey a)
        (((lookupSeen seen (getDuplicateKey a)).getD []) ++ [a.id]) a.id
        ?_ (by simp) ⟨b, by simp, hab.symm⟩
      rw [lookupSeen_cons, if_pos rfl]
    · refine findDuplicatesAux_dupAt _ _ _ b (by simp)
        ⟨((lookupSeen seen (getDuplicateKey a)).getD []) ++ [a.id], ?_, by simp⟩
      rw [lookupSeen_cons, if_pos hab]
  | cons u l1' ih =>
    intro seen dups a l2 b l3 hab
    rw [List.cons_append, findDuplicatesAux_cons]
    exact ih _ _ a l2 b l3 hab

theorem dupKeyTuple_to_string {a b : Transaction}
    (h : dupKeyTupleSpec a = dupKeyTupleSpec b) :
    getDuplicateKey a = getDuplicateKey b := by
  unfold dupKeyTupleSpec at h
  simp only [Prod.mk.injEq] at h
  obtain ⟨h1, h2, h3, h4, h5⟩ := h
  unfold getDuplicateKey
  rw [h1, h2, h3, h4, h5]

theorem findDuplicatesAux_sound_after :
    ∀ (l : List Transaction) (seen : List (String × List String))
      (dups : List String) (tx : Transaction),
      tx.id ∉ dups →
      (∀ k ids, k ≠ getDuplicateKey tx → lookupSeen seen k = some ids →
        tx.id ∉ ids) →
      (∀ u ∈ l, getDuplicateKey u ≠ getDuplicateKey tx) →
      (∀ u ∈ l, u.id ≠ tx.id) →
      tx.id ∉ findDuplicatesAux l seen dups := by
  intro l
  induction l with
  | nil => intro seen dups tx h1 _ _ _; exact h1
  | cons u rest ih =>
    intro seen dups tx h1 h2 h3 h4
    have hku : getDuplicateKey u ≠ getDuplicateKey tx :=
      h3 u (List.mem_cons_self _ _)
    have hidu : u.id ≠ tx.id := h4 u (List.mem_cons_self _ _)
    have hex : tx.id ∉ (lookupSeen seen (getDuplicateKey u)).getD [] := by
      rcases hl : lookupSeen seen (getDuplicateKey u) with _ | ids
      · simp
      · simpa using h2 (getDuplicateKey u) ids hku hl
    rw [findDuplicatesAux_cons]
    apply ih
    · split_ifs
      · intro hmem
        rcases List.mem_cons.mp hmem with he | hm
        · exact hidu he.symm
        · rcases List.mem_append.mp hm with h | h
          · exact hex h
          · exact h1 h
      · exact h1
    · intro k ids hk hl
      rw [lookupSeen_cons] at hl
      by_cases hek : getDuplicateKey u = k
      · rw [if_pos hek] at hl
        injection hl with hl
        subst hl
        intro hmem
        rcases List.mem_append.mp hmem with h | h
        · exact hex h
        · simp at h
          exact hidu h.symm
      · rw [if_neg hek] at hl
        exact h2 k ids hk hl
    · exact fun v hv => h3 v (List.mem_cons_of_mem _ hv)
    · exact fun v hv => h4 v (List.mem_cons_of_mem _ hv)

theorem findDuplicatesAux_sound_before :
    ∀ (l : List Transaction) (seen : List (String × List String))
      (dups : List String) (tx : Transaction),
      tx.id ∉ dups →
      (∀ k ids, lookupSeen seen k = some ids → tx.id ∉ ids) →
      lookupSeen seen (getDuplicateKey tx) = none →
      (l.filter (fun u => getDuplicateKey u == getDuplicateKey tx)).length ≤ 1 →
      (∀ u ∈ l, u.id = tx.id → getDuplicateKey u = getDuplicateKey tx) →
      tx.id ∉ findDuplicatesAux l seen dups := by
  intro l
  induction l with
  | nil => intro seen dups tx h1 _ _ _ _; exact h1
  | cons u rest ih =>
    intro seen dups tx h1 h2 h3 h4 h5
    rw [findDuplicatesAux_cons]
    by_cases hk : getDuplicateKey u = getDuplicateKey tx
    · have hex : (lookupSeen seen (getDuplicateKey u)).getD [] = [] := by
        rw [hk, h3]
        rfl
      have hrest0 : ∀ v ∈ rest, getDuplicateKey v ≠ getDuplicateKey tx := by
        intro v hv hcon
        have hfu : (u :: rest).filter
            (fun w => getDuplicateKey w == getDuplicateKey tx) =
            u :: rest.filter
              (fun w => getDuplicateKey w == getDuplicateKey tx) :=
          List.filter_cons_of_pos (by simp [hk])
        have hvmem : v ∈ rest.filter
            (fun w => getDuplicateKey w == getDuplicateKey tx) :=
          List.mem_filter.mpr ⟨hv, by simp [hcon]⟩
        have hpos : 1 ≤ (rest.filter
            (fun w => getDuplicateKey w == getDuplicateKey tx)).length :=
          List.length_pos.mpr (List.ne_nil_of_mem hvmem)
        rw [hfu, List.length_cons] at h4
        omega
      rw [hex, if_neg (by simp)]
      apply findDuplicatesAux_sound_after rest _ dups tx h1 ?_ hrest0 ?_
      · intro k ids hkk hl
        rw [lookupSeen_cons] at hl
        by_cases hek : getDuplicateKey u = k
        · exact absurd (hek.symm.trans hk) hkk
        · rw [if_neg hek] at hl
          exact h2 k ids hl
      · intro v hv he
        exact absurd (h5 v (List.mem_cons_of_mem _ hv) he) (hrest0 v hv)
    · have hidu : u.id ≠ tx.id := fun he => hk (h5 u (List.mem_cons_self _ _) he)
      have hex : tx.id ∉ (lookupSeen seen (getDuplicateKey u)).getD [] := by
        rcases hl : lookupSeen seen (getDuplicateKey u) with _ | ids
        · simp
        · simpa using h2 (getDuplicateKey u) ids hl
      apply ih
      · split_ifs
        · intro hmem
          rcases List.mem_cons.mp hmem with he | hm
          · exact hidu he.symm
          · rcases List.mem_append.mp hm with h | h
            · exact hex h
            · exact h1 h
        · exact h1
      · intro k ids hl
        rw [lookupSeen_cons] at hl
        by_cases hek : getDuplicateKey u = k
        · rw [if_pos hek] at hl
          injection hl with hl
          subst hl
          intro hmem
          rcases List.mem_append.mp hmem with h | h
          · exact hex h
          · simp at h
            exact hidu h.symm
        · rw [if_neg hek] at hl
          exact h2 k ids hl
      · rw [lookupSeen_cons, if_neg hk]
        exact h3
      · rw [List.filter_cons_of_neg (by simp [hk])] at h4
        exact h4
      · exact fun v hv => h5 v (List.mem_cons_of_mem _ hv)

theorem findDuplicates_sound (l : List Transaction) (tx : Transaction)
    (hnodup : (l.map Transaction.id).Nodup) (hmem : tx ∈ l)
    (hone : (l.filter
      (fun u => getDuplicateKey u == getDuplicateKey tx)).length = 1) :
    tx.id ∉ findDuplicates l := by
  apply findDuplicatesAux_sound_before l [] [] tx (by simp) ?_ ?_ (by omega) ?_
  · intro k ids hl
    simp [lookupSeen] at hl
  · simp [lookupSeen]
  · intro u hu he
    have : u = tx := List.inj_on_of_nodup_map hnodup hu hmem he
    rw [this]

/-- Claim C6 (amended): membership in the duplicate set is decided by
the serialized key string. Completeness holds as the claim states it:
two transactions sharing the composite key tuple `(date,
lowercased-trimmed description, debit, credit, reference)` are both
marked, wherever they sit in the list. The never-marked direction holds
for the key string (given distinct ids): a transaction whose serialized
key collides with no other entry's is never in the set — but distinct
tuples can serialize to the same string when a field contains the `'|'`
separator, and such transactions are also marked. -/
theorem findDuplicates_spec :
    (∀ (l1 l2 l3 : List Transaction) (a b : Transaction),
      dupKeyTupleSpec a = dupKeyTupleSpec b →
      a.id ∈ findDuplicates (l1 ++ a :: (l2 ++ b :: l3)) ∧
      b.id ∈ findDuplicates (l1 ++ a :: (l2 ++ b :: l3))) ∧
    (∀ (l : List Transaction) (tx : Transaction),
      (l.map Transaction.id).Nodup → tx ∈ l →
      (l.filter
        (fun u => getDuplicateKey u == getDuplicateKey tx)).length = 1 →
      tx.id ∉ findDuplicates l) := by
  constructor
  · intro l1 l2 l3 a b hab
    exact findDuplicates_both_marked_aux l1 [] [] a l2 b l3
      (dupKeyTuple_to_string hab)
  · exact findDuplicates_sound

/-- Witness for claim C6: two transactions with the same key tuple
(descriptions differing only in case and trailing space) are both
marked, and a third transaction with a unique key is not. -/
theorem findDuplicates_spec_witness :
    (("A" : String) ∈ findDuplicates ([] ++
        (⟨"A", "2024-01-01", "NEFT", none, 0, 100, none, "INR", none⟩ :
          Transaction) :: ([] ++
        (⟨"B", "2024-01-01", "neft ", none, 0, 100, none, "INR", none⟩ :
          Transaction) :: [])) ∧
      ("B" : String) ∈ findDuplicates ([] ++
        (⟨"A", "2024-01-01", "NEFT", none, 0, 100, none, "INR", none⟩ :
          Transaction) :: ([] ++
        (⟨"B", "2024-01-01", "neft ", none, 0, 100, none, "INR", none⟩ :
          Transaction) :: []))) ∧
    ("C" : String) ∉ findDuplicates
      [⟨"C", "2024-01-02", "ATM", none, 50, 0, none, "INR", none⟩,
       ⟨"D", "2024-01-01", "NEFT", none, 0, 100, none, "INR", none⟩] :=
  ⟨findDuplicates_spec.1 [] [] []
      ⟨"A", "2024-01-01", "NEFT", none, 0, 100, none, "INR", none⟩
      ⟨"B", "2024-01-01", "neft ", none, 0, 100, none, "INR", none⟩
      (by decide),
    findDuplicates_spec.2
      [⟨"C", "2024-01-02", "ATM", none, 50, 0, none, "INR", none⟩,
       ⟨"D", "2024-01-01", "NEFT", none, 0, 100, none, "INR", none⟩]
      ⟨"C", "2024-01-02", "ATM", none, 50, 0, none, "INR", none⟩
      (by decide) (by decide) (by decide)⟩

end BankToTally
